import Mathlib

set_option maxHeartbeats 1000000

/-!
Verification of the article content pipeline of the pet-gadget-insider
repository (`src/app/blog/[slug]/page.tsx`), shallowly embedded over
`List Char` / `String`.  JS strings are modelled as `List Char`; the ASCII
range of JS whitespace and lowercasing is used, matching the ASCII ids,
slugs and markup the pipeline processes.
-/

/-- JS whitespace in the ASCII range, as matched by the `\s` class and by
`String.prototype.trim` in page.tsx. -/
def isJsWs (c : Char) : Bool :=
  c = ' ' || c = '\t' || c = '\n' || c = '\r' || c = '\x0b' || c = '\x0c'

/-- The single-quote character. -/
def squote : Char := Char.ofNat 39

/-- Lowercase a character list, modelling JS `toLowerCase` on ASCII text. -/
def lowerStr (l : List Char) : List Char := l.map Char.toLower

/-- Drop leading and trailing JS whitespace, modelling `String.prototype.trim`. -/
def jsTrim (l : List Char) : List Char :=
  ((l.dropWhile isJsWs).reverse.dropWhile isJsWs).reverse

/-- Boolean prefix test on character lists. -/
def isPrefixOfB : List Char → List Char → Bool
  | [], _ => true
  | _ :: _, [] => false
  | a :: as, b :: bs => a = b && isPrefixOfB as bs

/-- Boolean substring test on character lists. -/
def containsSub (needle : List Char) : List Char → Bool
  | [] => needle.isEmpty
  | c :: rest => isPrefixOfB needle (c :: rest) || containsSub needle rest

/-- An entry of the `internalLinks` table of blog-articles.json, as typed in
page.tsx. -/
structure InternalLink where
  id : String
  url : String
  text : String
deriving DecidableEq

/-- The link table built by `parseInternalLinks`: a JS `Map` keyed by the
lowercased id.  With duplicate ids the later entry overwrites the earlier
one, as the `Map` constructor does. -/
def lookupLink (links : List InternalLink) (key : List Char) : Option InternalLink :=
  links.foldl (fun acc l => if lowerStr l.id.data = key then some l else acc) none

/-- Characters admitted inside the id capture group of the placeholder
regex, the class written `[^"'\s>]` in page.tsx. -/
def idChar (c : Char) : Bool :=
  !(c = '"' || c = squote || isJsWs c || c = '>')

/-- Match a lowercase pattern case-insensitively against the head of the
input, returning the remainder on success. -/
def stripCI : List Char → List Char → Option (List Char)
  | [], cs => some cs
  | _ :: _, [] => none
  | p :: ps, c :: cs => if c.toLower = p then stripCI ps cs else none

/-- Consume one or more whitespace characters, the regex piece written
`\s+` in page.tsx. -/
def stripWs1 : List Char → Option (List Char)
  | [] => none
  | c :: rest => if isJsWs c then some (rest.dropWhile isJsWs) else none

/-- Consume optional whitespace followed by the literal slash and
greater-than sign closing the placeholder. -/
def stripClose (cs : List Char) : Option (List Char) :=
  match cs.dropWhile isJsWs with
  | '/' :: '>' :: rest => some rest
  | _ => none

/-- Backtracking over the greedy unquoted id run: the candidate id, held
reversed, is shortened from the right until the close token matches, as the
regex engine backtracks. -/
def shrinkIdRev : List Char → List Char → Option (List Char × List Char)
  | [], _ => none
  | c :: revRest, after =>
    match stripClose after with
    | some rest => some ((c :: revRest).reverse, rest)
    | none => shrinkIdRev revRest (c :: after)

/-- Match the id section of the placeholder regex: an optional quote, the
id characters, the matching quote via the backreference, optional
whitespace and the closing slash. -/
def matchIdPart : List Char → Option (List Char × List Char)
  | [] => none
  | q :: r4 =>
    if q = '"' || q = squote then
      match r4.dropWhile idChar with
      | q2 :: r5 =>
        if q2 = q && !(r4.takeWhile idChar).isEmpty then
          (stripClose r5).map (fun r6 => (r4.takeWhile idChar, r6))
        else none
      | [] => none
    else
      let run := (q :: r4).takeWhile idChar
      if run.isEmpty then none
      else shrinkIdRev run.reverse ((q :: r4).dropWhile idChar)

/-- Match the placeholder regex of `parseInternalLinks` at the start of the
input, returning the captured id and the remainder of the input. -/
def matchPlaceholder (cs : List Char) : Option (List Char × List Char) :=
  match stripCI "<internallink".data cs with
  | none => none
  | some r1 =>
    match stripWs1 r1 with
    | none => none
    | some r2 =>
      match stripCI "id=".data r2 with
      | none => none
      | some r3 => matchIdPart r3

/-- Replacement text for one matched placeholder: an anchor on a table hit,
the broken-link marker on a miss, exactly the template literals of
page.tsx. -/
def renderLink (links : List InternalLink) (id : List Char) : List Char :=
  match lookupLink links (lowerStr id) with
  | none => "<span class=\"broken-link\">[Broken Link: ".data ++ id ++ "]</span>".data
  | some l =>
    "<a href=\"".data ++ l.url.data ++ "\" class=\"internal-link\">".data
      ++ l.text.data ++ "</a>".data

/-- Fuelled global-replace scan for the placeholder regex, as
`String.replace` with the `g` flag: leftmost matches, non-overlapping,
unmatched characters copied through unchanged. -/
def parseGo (links : List InternalLink) : Nat → List Char → List Char
  | _, [] => []
  | 0, cs => cs
  | fuel + 1, c :: rest =>
    match matchPlaceholder (c :: rest) with
    | some (id, after) => renderLink links id ++ parseGo links fuel after
    | none => c :: parseGo links fuel rest

/-- The `parseInternalLinks` transform of page.tsx: resolve every
placeholder against the link table, leaving the rest of the body
unchanged. -/
def parseInternalLinks (links : List InternalLink) (s : String) : String :=
  ⟨parseGo links s.data.length s.data⟩

def aboutLinks : List InternalLink := [⟨"about", "/about", "About Us"⟩]

/-- Match the h2 opening-tag regex of the heading decorator at the start of
the input: the tag name, then an optional group of one-or-more whitespace
followed by attribute characters, then the closing greater-than sign.
Returns the captured group and the remainder after the tag. -/
def matchH2Open (cs : List Char) : Option (List Char × List Char) :=
  match stripCI "<h2".data cs with
  | none => none
  | some r =>
    match r with
    | [] => none
    | c :: rest =>
      if isJsWs c then
        match rest.dropWhile (fun d => !(d = '>')) with
        | '>' :: after => some (c :: rest.takeWhile (fun d => !(d = '>')), after)
        | _ => none
      else if c = '>' then some ([], rest)
      else none

/-- Fuelled global-replace scan for the heading decorator: every matched h2
opening tag is rewritten with the fixed replacement template, which keeps
the captured attribute group and appends a class declaration. -/
def h2Go : Nat → List Char → List Char
  | _, [] => []
  | 0, cs => cs
  | fuel + 1, c :: rest =>
    match matchH2Open (c :: rest) with
    | some (grp, after) =>
      "<h2".data ++ grp ++ " class=\"blog-heading\">".data ++ h2Go fuel after
    | none => c :: h2Go fuel rest

/-- The heading-decorator replace of page.tsx, adding the blog-heading
class declaration to every h2 opening tag. -/
def addBlogHeadingClass (s : String) : String :=
  ⟨h2Go s.data.length s.data⟩

/-- Line terminators excluded by the dot of a JS regex without the s flag. -/
def isJsNewline (c : Char) : Bool :=
  c = '\n' || c = '\r' || c = Char.ofNat 0x2028 || c = Char.ofNat 0x2029

/-- Does the input begin with a closing h2 tag, case-insensitively? -/
def isCloseH2At (cs : List Char) : Bool :=
  match cs with
  | a :: b :: c :: d :: e :: _ =>
    a = '<' && b = '/' && c.toLower = 'h' && d = '2' && e = '>'
  | _ => false

/-- Lazy scan for the closing h2 tag of the heading regex: the dot of the
content group matches no line terminator, and the nearest closing tag wins.
Returns the content, the five characters of the closing tag as they appear
in the source, and the remainder. -/
def findCloseH2 : List Char → Option (List Char × List Char × List Char)
  | [] => none
  | c :: rest =>
    if isCloseH2At (c :: rest) then
      some ([], (c :: rest).take 5, (c :: rest).drop 5)
    else if isJsNewline c then none
    else
      match findCloseH2 rest with
      | some (content, ct, r) => some (c :: content, ct, r)
      | none => none

/-- Match the full heading regex of `generateFAQSchema` at the start of the
input, returning the complete matched text and the remainder. -/
def matchH2Full (cs : List Char) : Option (List Char × List Char) :=
  match cs with
  | c1 :: c2 :: c3 :: rest =>
    if c1 = '<' && c2.toLower = 'h' && c3 = '2' then
      match rest.dropWhile (fun d => !(d = '>')) with
      | '>' :: rest2 =>
        match findCloseH2 rest2 with
        | some (content, ct, rest3) =>
          some (c1 :: c2 :: c3 :: (rest.takeWhile (fun d => !(d = '>')) ++ '>' :: (content ++ ct)),
            rest3)
        | none => none
      | _ => none
    else none
  | _ => none

/-- All matches of the heading regex in document order, as returned by
`String.match` with the g flag. -/
def findAllH2Go : Nat → List Char → List (List Char)
  | _, [] => []
  | 0, _ => []
  | fuel + 1, c :: rest =>
    match matchH2Full (c :: rest) with
    | some (m, after) => m :: findAllH2Go fuel after
    | none => findAllH2Go fuel rest

/-- The heading matches of a body, in document order. -/
def headingMatches (body : List Char) : List (List Char) :=
  findAllH2Go body.length body

/-- Fuelled global replace of every markup tag, the regex written
`<[^>]+>` in page.tsx, by the replacement text. -/
def stripTagsGo (r : List Char) : Nat → List Char → List Char
  | _, [] => []
  | 0, cs => cs
  | fuel + 1, c :: rest =>
    if c = '<' then
      match rest.dropWhile (fun d => !(d = '>')) with
      | '>' :: after =>
        if (rest.takeWhile (fun d => !(d = '>'))).isEmpty then
          c :: stripTagsGo r fuel rest
        else
          r ++ stripTagsGo r fuel after
      | _ => c :: stripTagsGo r fuel rest
    else c :: stripTagsGo r fuel rest

/-- Replace every markup tag by the given text. -/
def stripTags (r : List Char) (cs : List Char) : List Char :=
  stripTagsGo r cs.length cs

/-- Collapse every run of whitespace to a single space, the replace of
`\s+` by one space in page.tsx. -/
def collapseWsAux : Bool → List Char → List Char
  | _, [] => []
  | prevWs, c :: rest =>
    if isJsWs c then
      if prevWs then collapseWsAux true rest
      else ' ' :: collapseWsAux true rest
    else c :: collapseWsAux false rest

/-- Collapse whitespace runs to single spaces. -/
def collapseWs (cs : List Char) : List Char := collapseWsAux false cs

/-- First index at or after the running position where the needle occurs. -/
def idxGo (needle : List Char) : List Char → Nat → Option Nat
  | [], i => if needle.isEmpty then some i else none
  | c :: rest, i =>
    if isPrefixOfB needle (c :: rest) then some i else idxGo needle rest (i + 1)

/-- JS `String.prototype.indexOf` with a position argument: the position is
clamped below at zero, and the result is the index of the first occurrence
at or after it, or minus one. -/
def jsIndexOfFrom (hay needle : List Char) (start : Int) : Int :=
  let s := (max start 0).toNat
  match idxGo needle (hay.drop s) 0 with
  | some i => ((s + i : Nat) : Int)
  | none => -1

/-- JS `String.prototype.indexOf` from the start of the string. -/
def jsIndexOf (hay needle : List Char) : Int := jsIndexOfFrom hay needle 0

/-- JS `String.prototype.substring`: both arguments are clamped into the
string and swapped when out of order. -/
def jsSubstring (s : List Char) (a b : Int) : List Char :=
  let a2 := min (max a 0).toNat s.length
  let b2 := min (max b 0).toNat s.length
  (s.take (max a2 b2)).drop (min a2 b2)

/-- One FAQ item of the FAQ schema: the question name and the accepted
answer text. -/
structure FAQItem where
  name : String
  answer : String
deriving DecidableEq

/-- The answer region of one heading, as computed by `generateFAQSchema`:
from the end of the first occurrence of the heading's matched text to the
first occurrence of the next heading's matched text at or after that point,
or to the end of the body for the last heading. -/
def faqAnswerRegion (body m : List Char) (next? : Option (List Char)) : List Char :=
  let start : Int := jsIndexOf body m + (m.length : Int)
  let stop : Int :=
    match next? with
    | some n => jsIndexOfFrom body n start
    | none => (body.length : Int)
  jsSubstring body start stop

/-- The loop body of `generateFAQSchema` over the heading matches: strip
markup from the heading for the name, strip markup to spaces, collapse
whitespace and trim for the answer, and keep only items with a non-empty
answer. -/
def faqLoop (body : List Char) : List (List Char) → List FAQItem
  | [] => []
  | m :: ms =>
    let name := jsTrim (stripTags [] m)
    let answer := jsTrim (collapseWs (stripTags [' '] (faqAnswerRegion body m ms.head?)))
    let rest := faqLoop body ms
    match answer with
    | [] => rest
    | _ => ⟨⟨name⟩, ⟨answer⟩⟩ :: rest

/-- The `generateFAQSchema` function of page.tsx: no result for an empty
body or when no item has a non-empty answer, else the item list in
document order. -/
def generateFAQSchema (body : String) : Option (List FAQItem) :=
  match body.data with
  | [] => none
  | _ =>
    match faqLoop body.data (headingMatches body.data) with
    | [] => none
    | items => some items

/-- A token of the markup stream seen by the sanitizer, as produced by a
lowercasing HTML tokenizer: text, an opening tag with its attributes, or a
closing tag.  Arbitrary (also malformed) input HTML corresponds to an
arbitrary token list. -/
inductive HtmlToken where
  | text (s : String)
  | openTag (tagName : String) (attribs : List (String × String))
  | closeTag (tagName : String)
deriving DecidableEq

/-- Modelled from the spec: the sanitize-html library's default allowed tag
list, the spec's conservative default list.  The library itself is an
external dependency absent from the repository; this list is its documented
default, which contains neither iframe nor img. -/
def defaultAllowedTags : List String :=
  ["address", "article", "aside", "footer", "header",
   "h1", "h2", "h3", "h4", "h5", "h6", "hgroup", "main", "nav", "section",
   "blockquote", "dd", "div", "dl", "dt", "figcaption", "figure", "hr",
   "li", "main", "ol", "p", "pre", "ul",
   "a", "abbr", "b", "bdi", "bdo", "br", "cite", "code", "data", "dfn",
   "em", "i", "kbd", "mark", "q", "rb", "rp", "rt", "rtc", "ruby", "s",
   "samp", "small", "span", "strong", "sub", "sup", "time", "u", "var",
   "wbr", "caption", "col", "colgroup", "table", "tbody", "td", "tfoot",
   "th", "thead", "tr"]

/-- The allowedTags option passed to sanitizeHtml in page.tsx: the defaults
plus the spread-in additions. -/
def allowedTags : List String :=
  defaultAllowedTags ++
    ["img", "svg", "path", "line", "rect", "circle", "g", "text", "tspan"]

/-- The allowedAttributes option passed to sanitizeHtml in page.tsx.  The
library defaults hold entries only for a and img, both of which the source
object overrides, so the effective map is exactly the source object; every
tag outside it admits no attributes. -/
def allowedAttributesFor (t : String) : List String :=
  if t = "a" then ["href", "name", "target", "class", "rel"]
  else if t = "img" then ["src", "alt", "width", "height", "class", "style"]
  else if t = "iframe" then ["src", "width", "height", "frameborder", "allowfullscreen"]
  else if t = "div" then ["class", "style"]
  else if t = "span" then ["class", "style"]
  else if t = "h2" then ["class", "style"]
  else if t = "table" then ["class", "style", "border"]
  else if t = "thead" then ["class", "style", "border"]
  else if t = "tbody" then ["class", "style", "border"]
  else if t = "tr" then ["class", "style", "border"]
  else if t = "th" then ["class", "style", "border"]
  else if t = "td" then ["class", "style", "border"]
  else if t = "svg" then ["width", "height", "viewbox", "xmlns", "class", "style"]
  else if t = "path" then ["d", "fill", "stroke", "stroke-width", "class", "style"]
  else if t = "line" then ["x1", "y1", "x2", "y2", "stroke", "stroke-width", "class", "style"]
  else if t = "rect" then
    ["x", "y", "width", "height", "rx", "ry", "fill", "stroke", "stroke-width", "class", "style"]
  else if t = "circle" then ["cx", "cy", "r", "fill", "stroke", "stroke-width", "class", "style"]
  else if t = "g" then ["transform", "class", "style"]
  else if t = "text" then ["x", "y", "text-anchor", "class", "style"]
  else if t = "tspan" then ["x", "y", "dx", "dy", "class", "style"]
  else []

/-- The allowedIframeHostnames option passed to sanitizeHtml in page.tsx. -/
def allowedIframeHostnames : List String := ["www.youtube.com", "player.vimeo.com"]

/-- First value bound to the key in the attribute list, as JS property
access on the attributes object. -/
def getAttr (attrs : List (String × String)) (k : String) : Option String :=
  (attrs.find? (fun p => p.1 = k)).map (fun p => p.2)

/-- JS object spread setting one key: an existing binding is overwritten in
place, a new one is appended. -/
def setAttr (attrs : List (String × String)) (k v : String) : List (String × String) :=
  if attrs.any (fun p => p.1 = k) then
    attrs.map (fun p => if p.1 = k then (k, v) else p)
  else attrs ++ [(k, v)]

/-- The transformTags entry for a in page.tsx: when an href is present and
starts with http, overwrite rel and target; otherwise return the tag
unchanged. -/
def aTransform (tagName : String) (attrs : List (String × String)) :
    String × List (String × String) :=
  match getAttr attrs "href" with
  | some href =>
    if isPrefixOfB "http".data href.data then
      ("a", setAttr (setAttr attrs "rel" "noopener noreferrer nofollow") "target" "_blank")
    else (tagName, attrs)
  | none => (tagName, attrs)

/-- The transformTags map of page.tsx: only a has a transform. -/
def transformTag (tagName : String) (attrs : List (String × String)) :
    String × List (String × String) :=
  if tagName = "a" then aTransform tagName attrs else (tagName, attrs)

/-- Modelled from the spec: hostname extraction from an iframe src, the
library's check behind allowedIframeHostnames.  The scheme prefix is
stripped and the hostname runs to the first delimiter. -/
def hostnameOf (url : String) : Option String :=
  let rest? : Option (List Char) :=
    if isPrefixOfB "https://".data url.data then some (url.data.drop 8)
    else if isPrefixOfB "http://".data url.data then some (url.data.drop 7)
    else if isPrefixOfB "//".data url.data then some (url.data.drop 2)
    else none
  rest?.map (fun r =>
    ⟨r.takeWhile (fun c => !(c = '/' || c = ':' || c = '?' || c = '#'))⟩)

/-- Modelled from the spec: the iframe hostname gate.  An iframe with a src
whose hostname is outside the allowed list, or with an unparsable src, is
discarded whole. -/
def iframeSrcAllowed (attrs : List (String × String)) : Bool :=
  match getAttr attrs "src" with
  | none => true
  | some src =>
    match hostnameOf src with
    | some h => allowedIframeHostnames.contains h
    | none => false

/-- Modelled from the spec: the per-token action of the sanitize-html
allow-list filter with the configuration of page.tsx.  Text passes, a tag
outside the allow-list is discarded (its surrounding tokens are kept, as in
discard mode), an allowed opening tag is transformed, gated for iframes,
and its attributes filtered to the allowed set. -/
def sanitizeToken : HtmlToken → Option HtmlToken
  | .text s => some (.text s)
  | .closeTag t => if allowedTags.contains t then some (.closeTag t) else none
  | .openTag t attrs =>
    let ta := transformTag t attrs
    if allowedTags.contains ta.1 then
      if ta.1 = "iframe" && !(iframeSrcAllowed ta.2) then none
      else
        some (.openTag ta.1 (ta.2.filter (fun p => (allowedAttributesFor ta.1).contains p.1)))
    else none

/-- Modelled from the spec: the sanitize-html pass over the token stream
with the configuration of page.tsx. -/
def sanitize (ts : List HtmlToken) : List HtmlToken := ts.filterMap sanitizeToken

/-- Every kept tag is in the allow-list and carries only allowed
attributes. -/
def tokenAllowed : HtmlToken → Prop
  | .text _ => True
  | .closeTag t => t ∈ allowedTags
  | .openTag t attrs => t ∈ allowedTags ∧ ∀ p ∈ attrs, p.1 ∈ allowedAttributesFor t

/-- An article record of blog-articles.json, with the fields the pipeline
reads.  Optional JSON fields are Options. -/
structure Article where
  slug : String
  pageTitle : String
  description : String
  metaDescription : String
  featuredImageUrl : String
  featuredImageAlt : String
  mainCategorySlug : String
  mainCategoryName : String
  subCategorySlug : String
  subCategoryName : String
  htmlBody : String
  isPreformatted : Bool
  amazon_link : Option String
  datePublished : String
  dateModified : String
  titleTag : Option String
deriving DecidableEq

/-- JS truthiness fallback on strings: the left operand unless it is the
empty string. -/
def jsOrStr (a b : String) : String := if a = "" then b else a

/-- JS truthiness fallback on an optional string: the value unless absent
or empty. -/
def jsOrOpt (a : Option String) (b : String) : String :=
  match a with
  | some s => jsOrStr s b
  | none => b

/-- The Offer part of the product schema built in page.tsx. -/
structure Offer where
  url : String
  priceCurrency : String
  price : String
  availability : String
deriving DecidableEq

/-- The Product schema record built in page.tsx. -/
structure ProductSchema where
  name : String
  description : String
  image : String
  offers : Offer
deriving DecidableEq

/-- JS truthiness of an optional string field: an absent value and the
empty string are both falsy, the guard written with a bang on
article.amazon_link in page.tsx. -/
def jsTruthy (s : Option String) : Bool :=
  match s with
  | none => false
  | some v => !(v = "")

/-- The `generateProductSchema` function of page.tsx: its falsy guard
yields no result when the affiliate link is absent or the empty string,
else the product record with the placeholder price. -/
def generateProductSchema (a : Article) : Option ProductSchema :=
  match a.amazon_link with
  | none => none
  | some link =>
    if link = "" then none
    else
      some
        { name := a.pageTitle
          description := jsOrStr a.metaDescription a.description
          image := a.featuredImageUrl
          offers :=
            { url := link
              priceCurrency := "USD"
              price := "0"
              availability := "https://schema.org/InStock" } }

/-- The visible error placeholder emitted by the catch branch of
`renderArticleContent`. -/
def errorPlaceholder : String := "<div class=\"text-red-500\">Error loading content</div>"

/-- The `renderArticleContent` boundary of page.tsx with the transform
chain's outcome passed explicitly: exceptions of the chain are embedded as
the error case of Except, the try branch embeds the sanitized HTML, the
catch branch yields the error placeholder. -/
def renderArticleContent (chainResult : Except String String) : String :=
  match chainResult with
  | .ok html => "<div>" ++ html ++ "</div>"
  | .error _ => errorPlaceholder

/-- The regions of the rendered blog-post page, in source order: the
structured-data scripts, the breadcrumbs, the header, the content region
and the affiliate block. -/
structure PageRegions where
  articleHeadline : String
  faqSchema : Option (List FAQItem)
  productSchema : Option ProductSchema
  breadcrumbTrail : List String
  headerTitle : String
  content : String
  affiliateBlock : Option String
deriving DecidableEq

/-- The `BlogPostPage` body of page.tsx as a pure assembly of its regions,
with the content transform chain's outcome passed explicitly: only the
content region reads it, through `renderArticleContent`. -/
def blogPostPage (a : Article) (chainResult : Except String String) : PageRegions :=
  { articleHeadline := a.pageTitle
    faqSchema := generateFAQSchema a.htmlBody
    productSchema := generateProductSchema a
    breadcrumbTrail :=
      ["Home", "Pet Supplies Reviews", a.mainCategoryName, a.subCategoryName, a.pageTitle]
    headerTitle := a.pageTitle
    content := renderArticleContent chainResult
    affiliateBlock := if jsTruthy a.amazon_link then a.amazon_link else none }

/-- All regions of the page other than the content region. -/
def pageChrome (p : PageRegions) :
    String × Option (List FAQItem) × Option ProductSchema × List String × String
      × Option String :=
  (p.articleHeadline, p.faqSchema, p.productSchema, p.breadcrumbTrail, p.headerTitle,
    p.affiliateBlock)

/-- Slug normalization applied by page.tsx to both the requested slug and
every stored slug: trim, then lowercase. -/
def normalizeSlug (s : String) : String := ⟨lowerStr (jsTrim s.data)⟩

/-- The article lookup of `BlogPostPage` and `generateMetadata`: the first
article whose normalized stored slug equals the normalized requested
slug. -/
def findArticle (articles : List Article) (slug : String) : Option Article :=
  articles.find? (fun item => normalizeSlug item.slug = normalizeSlug slug)

/-- The metadata title computed by `generateMetadata`: the not-found
fallback when no article matches, else titleTag with pageTitle as the
truthiness fallback. -/
def generateMetadataTitle (articles : List Article) (slug : String) : String :=
  match findArticle articles slug with
  | none => "Article Not Found"
  | some a => jsOrOpt a.titleTag a.pageTitle

def demoArticle : Article :=
  { slug := "Best-Cat-Feeder "
    pageTitle := "Best Cat Feeder"
    description := "desc"
    metaDescription := "meta"
    featuredImageUrl := "/images/feeder.png"
    featuredImageAlt := "a feeder"
    mainCategorySlug := "cat"
    mainCategoryName := "Cat"
    subCategorySlug := "feeders"
    subCategoryName := "Feeders"
    htmlBody := "<h2>Intro</h2><p>hello</p>"
    isPreformatted := false
    amazon_link := some "https://www.amazon.com/dp/x"
    datePublished := "2024-01-01"
    dateModified := "2024-02-01"
    titleTag := none }

/-- A placeholder body with a quoted id: the tag text, one space, the id
attribute with quote q around the id, and the self-closing slash. -/
def phQuoted (t id : List Char) (q : Char) : List Char :=
  t ++ ' ' :: 'i' :: 'd' :: '=' :: q :: (id ++ q :: '/' :: '>' :: [])

/-- A placeholder body with an unquoted id. -/
def phUnquoted (t id : List Char) : List Char :=
  t ++ ' ' :: 'i' :: 'd' :: '=' :: (id ++ '/' :: '>' :: [])

theorem stripCI_lower_append : ∀ (t cs : List Char), stripCI (lowerStr t) (t ++ cs) = some cs
  | [], _ => rfl
  | c :: t, cs => by
    simp only [lowerStr, List.map_cons, stripCI, List.cons_append, if_pos rfl]
    exact stripCI_lower_append t cs

theorem takeWhile_append_all {p : Char → Bool} :
    ∀ (xs ys : List Char), (∀ c ∈ xs, p c = true) →
      (xs ++ ys).takeWhile p = xs ++ ys.takeWhile p
  | [], ys, _ => rfl
  | x :: xs, ys, h => by
    have hx : p x = true := h x (List.mem_cons_self x xs)
    simp only [List.cons_append, List.takeWhile_cons, hx, if_true]
    rw [takeWhile_append_all xs ys (fun c hc => h c (List.mem_cons_of_mem x hc))]

theorem dropWhile_append_all {p : Char → Bool} :
    ∀ (xs ys : List Char), (∀ c ∈ xs, p c = true) →
      (xs ++ ys).dropWhile p = ys.dropWhile p
  | [], ys, _ => rfl
  | x :: xs, ys, h => by
    have hx : p x = true := h x (List.mem_cons_self x xs)
    simp only [List.cons_append, List.dropWhile_cons, hx, if_true]
    exact dropWhile_append_all xs ys (fun c hc => h c (List.mem_cons_of_mem x hc))

theorem matchIdPart_quoted (id : List Char) (q : Char)
    (hq : q = '"' ∨ q = squote)
    (hid : ∀ c ∈ id, idChar c = true) (hne : id ≠ []) :
    matchIdPart (q :: (id ++ q :: '/' :: '>' :: [])) = some (id, []) := by
  have hqc : (q = '"' || q = squote) = true := by
    rcases hq with rfl | rfl <;> simp
  have hqf : idChar q = false := by rcases hq with rfl | rfl <;> decide
  have hdw : (id ++ q :: '/' :: '>' :: []).dropWhile idChar = q :: '/' :: '>' :: [] := by
    rw [dropWhile_append_all _ _ hid, List.dropWhile_cons, hqf]; simp
  have htw : (id ++ q :: '/' :: '>' :: []).takeWhile idChar = id := by
    rw [takeWhile_append_all _ _ hid, List.takeWhile_cons, hqf]; simp
  have hie : id.isEmpty = false := by
    cases id with
    | nil => exact absurd rfl hne
    | cons a l => rfl
  simp only [matchIdPart, hqc, if_true, hdw, htw, hie, Bool.not_false, Bool.and_true,
    decide_eq_true_eq, if_pos rfl]
  rfl

theorem shrinkIdRev_cons_hit (c : Char) (rest after r : List Char)
    (h : stripClose after = some r) :
    shrinkIdRev (c :: rest) after = some ((c :: rest).reverse, r) := by
  simp only [shrinkIdRev, h]

theorem matchIdPart_unquoted (id : List Char)
    (hid : ∀ c ∈ id, idChar c = true) (hne : id ≠ []) :
    matchIdPart (id ++ '/' :: '>' :: []) = some (id, []) := by
  obtain ⟨c0, id', rfl⟩ := List.exists_cons_of_ne_nil hne
  have hc0 : idChar c0 = true := hid c0 (List.mem_cons_self c0 id')
  have hc0q : (c0 = '"' || c0 = squote) = false := by
    simp only [idChar, Bool.not_eq_true', Bool.or_eq_false_iff, decide_eq_false_iff_not] at hc0
    simp [hc0.1.1.1, hc0.1.1.2]
  have hts : ('/' :: '>' :: []).takeWhile idChar = ['/'] := by decide
  have hdd : ('/' :: '>' :: []).dropWhile idChar = ['>'] := by decide
  have htw : (c0 :: (id' ++ '/' :: '>' :: [])).takeWhile idChar = c0 :: (id' ++ ['/']) := by
    have h := takeWhile_append_all (c0 :: id') ('/' :: '>' :: []) hid
    simp only [List.cons_append, hts] at h
    exact h
  have hdw : (c0 :: (id' ++ '/' :: '>' :: [])).dropWhile idChar = ['>'] := by
    have h := dropWhile_append_all (c0 :: id') ('/' :: '>' :: []) hid
    simp only [List.cons_append, hdd] at h
    exact h
  have h1 : stripClose ['>'] = none := by decide
  have h2 : stripClose ('/' :: '>' :: []) = some [] := by decide
  have hrevne : id'.reverse ++ [c0] ≠ [] := by simp
  obtain ⟨d, ds, hds⟩ := List.exists_cons_of_ne_nil hrevne
  have hback : (d :: ds).reverse = c0 :: id' := by
    rw [← hds]
    simp
  show matchIdPart (c0 :: (id' ++ '/' :: '>' :: [])) = some (c0 :: id', [])
  simp only [matchIdPart, hc0q, Bool.false_eq_true, if_false, htw, hdw]
  simp only [List.isEmpty_cons, Bool.false_eq_true, if_false, List.reverse_cons,
    List.reverse_append]
  show shrinkIdRev ('/' :: (id'.reverse ++ [c0])) ['>'] = _
  rw [shrinkIdRev, h1, hds]
  rw [shrinkIdRev, h2, hback]

theorem matchPlaceholder_quoted (t id : List Char) (q : Char)
    (ht : lowerStr t = "<internallink".data)
    (hq : q = '"' ∨ q = squote)
    (hid : ∀ c ∈ id, idChar c = true) (hne : id ≠ []) :
    matchPlaceholder (phQuoted t id q) = some (id, []) := by
  have h1 : stripCI "<internallink".data (phQuoted t id q)
      = some (' ' :: 'i' :: 'd' :: '=' :: q :: (id ++ q :: '/' :: '>' :: [])) := by
    rw [← ht]
    exact stripCI_lower_append t _
  have h2 : stripWs1 (' ' :: 'i' :: 'd' :: '=' :: q :: (id ++ q :: '/' :: '>' :: []))
      = some ('i' :: 'd' :: '=' :: q :: (id ++ q :: '/' :: '>' :: [])) := rfl
  have h3 : stripCI "id=".data ('i' :: 'd' :: '=' :: q :: (id ++ q :: '/' :: '>' :: []))
      = some (q :: (id ++ q :: '/' :: '>' :: [])) := rfl
  simp only [matchPlaceholder, h1, h2, h3]
  exact matchIdPart_quoted id q hq hid hne

theorem matchPlaceholder_unquoted (t id : List Char)
    (ht : lowerStr t = "<internallink".data)
    (hid : ∀ c ∈ id, idChar c = true) (hne : id ≠ []) :
    matchPlaceholder (phUnquoted t id) = some (id, []) := by
  have h1 : stripCI "<internallink".data (phUnquoted t id)
      = some (' ' :: 'i' :: 'd' :: '=' :: (id ++ '/' :: '>' :: [])) := by
    rw [← ht]
    exact stripCI_lower_append t _
  have h2 : stripWs1 (' ' :: 'i' :: 'd' :: '=' :: (id ++ '/' :: '>' :: []))
      = some ('i' :: 'd' :: '=' :: (id ++ '/' :: '>' :: [])) := rfl
  have h3 : stripCI "id=".data ('i' :: 'd' :: '=' :: (id ++ '/' :: '>' :: []))
      = some (id ++ '/' :: '>' :: []) := rfl
  simp only [matchPlaceholder, h1, h2, h3]
  exact matchIdPart_unquoted id hid hne

theorem parseGo_nil (links : List InternalLink) (n : Nat) : parseGo links n [] = [] := by
  cases n <;> rfl

theorem parseGo_cons_hit (links : List InternalLink) (c : Char) (rest id after : List Char)
    (n : Nat) (h : matchPlaceholder (c :: rest) = some (id, after)) :
    parseGo links (n + 1) (c :: rest) = renderLink links id ++ parseGo links n after := by
  simp only [parseGo, h]

theorem tag_ne_nil (t : List Char) (ht : lowerStr t = "<internallink".data) : t ≠ [] := by
  intro h
  rw [h] at ht
  exact absurd ht (by decide)

theorem parse_phQuoted (links : List InternalLink) (t id : List Char) (q : Char)
    (ht : lowerStr t = "<internallink".data)
    (hq : q = '"' ∨ q = squote)
    (hid : ∀ c ∈ id, idChar c = true) (hne : id ≠ []) :
    parseGo links (phQuoted t id q).length (phQuoted t id q) = renderLink links id := by
  have hm := matchPlaceholder_quoted t id q ht hq hid hne
  obtain ⟨t0, t', rfl⟩ := List.exists_cons_of_ne_nil (tag_ne_nil t ht)
  have hshape : phQuoted (t0 :: t') id q
      = t0 :: (t' ++ ' ' :: 'i' :: 'd' :: '=' :: q :: (id ++ q :: '/' :: '>' :: [])) := rfl
  rw [hshape] at hm ⊢
  rw [List.length_cons, parseGo_cons_hit links _ _ _ _ _ hm, parseGo_nil, List.append_nil]

theorem parse_phUnquoted (links : List InternalLink) (t id : List Char)
    (ht : lowerStr t = "<internallink".data)
    (hid : ∀ c ∈ id, idChar c = true) (hne : id ≠ []) :
    parseGo links (phUnquoted t id).length (phUnquoted t id) = renderLink links id := by
  have hm := matchPlaceholder_unquoted t id ht hid hne
  obtain ⟨t0, t', rfl⟩ := List.exists_cons_of_ne_nil (tag_ne_nil t ht)
  have hshape : phUnquoted (t0 :: t') id
      = t0 :: (t' ++ ' ' :: 'i' :: 'd' :: '=' :: (id ++ '/' :: '>' :: [])) := rfl
  rw [hshape] at hm ⊢
  rw [List.length_cons, parseGo_cons_hit links _ _ _ _ _ hm, parseGo_nil, List.append_nil]

/-- C1: for every id present in the link table, matched case-insensitively,
resolving a placeholder referencing that id replaces the placeholder with
an anchor whose href is the table's url and whose text is the table's text,
carrying the internal-link class. -/
theorem c1_internal_link_anchor (links : List InternalLink) (id : List Char)
    (l : InternalLink)
    (hid : ∀ c ∈ id, idChar c = true) (hne : id ≠ [])
    (hl : lookupLink links (lowerStr id) = some l) :
    parseInternalLinks links ⟨"<InternalLink id=\"".data ++ id ++ "\"/>".data⟩
      = ⟨"<a href=\"".data ++ l.url.data ++ "\" class=\"internal-link\">".data
          ++ l.text.data ++ "</a>".data⟩ := by
  have ht : lowerStr "<InternalLink".data = "<internallink".data := by decide
  have hra : renderLink links id
      = "<a href=\"".data ++ l.url.data ++ "\" class=\"internal-link\">".data
          ++ l.text.data ++ "</a>".data := by
    rw [renderLink, hl]
  exact congrArg String.mk
    ((parse_phQuoted links "<InternalLink".data id '"' ht (Or.inl rfl) hid hne).trans hra)

/-- Witness for c1_internal_link_anchor at the spec's example: the about id
against the about table entry. -/
theorem c1_internal_link_anchor_witness :
    (∀ c ∈ "about".data, idChar c = true) ∧ "about".data ≠ ([] : List Char)
      ∧ lookupLink aboutLinks (lowerStr "about".data) = some ⟨"about", "/about", "About Us"⟩
      ∧ parseInternalLinks aboutLinks "<InternalLink id=\"about\"/>"
          = "<a href=\"/about\" class=\"internal-link\">About Us</a>" := by
  refine ⟨by decide, by decide, by decide, ?_⟩
  exact c1_internal_link_anchor aboutLinks "about".data ⟨"about", "/about", "About Us"⟩
    (by decide) (by decide) (by decide)

/-- C2 (amended): a placeholder written with the self-closing slash, its id
quoted with double or single quotes or unquoted and its tag name in any
letter case, resolves to the anchor when the lowercased id is in the table
and to the broken-link marker containing the id verbatim when it is not;
resolution is a total function, so it never throws. -/
theorem c2_placeholder_resolution (links : List InternalLink) (t id : List Char)
    (ht : lowerStr t = "<internallink".data)
    (hid : ∀ c ∈ id, idChar c = true) (hne : id ≠ []) :
    (parseInternalLinks links ⟨phQuoted t id '"'⟩ = ⟨renderLink links id⟩
      ∧ parseInternalLinks links ⟨phQuoted t id squote⟩ = ⟨renderLink links id⟩
      ∧ parseInternalLinks links ⟨phUnquoted t id⟩ = ⟨renderLink links id⟩)
    ∧ (lookupLink links (lowerStr id) = none →
        renderLink links id
          = "<span class=\"broken-link\">[Broken Link: ".data ++ id ++ "]</span>".data)
    ∧ (∀ l, lookupLink links (lowerStr id) = some l →
        renderLink links id
          = "<a href=\"".data ++ l.url.data ++ "\" class=\"internal-link\">".data
              ++ l.text.data ++ "</a>".data) := by
  refine ⟨⟨?_, ?_, ?_⟩, ?_, ?_⟩
  · exact congrArg String.mk (parse_phQuoted links t id '"' ht (Or.inl rfl) hid hne)
  · exact congrArg String.mk (parse_phQuoted links t id squote ht (Or.inr rfl) hid hne)
  · exact congrArg String.mk (parse_phUnquoted links t id ht hid hne)
  · intro hl
    rw [renderLink, hl]
  · intro l hl
    rw [renderLink, hl]

/-- Witness for c2_placeholder_resolution: an id absent from the table
resolves to the broken-link marker containing it verbatim. -/
theorem c2_placeholder_resolution_witness :
    lowerStr "<InternalLink".data = "<internallink".data
      ∧ (∀ c ∈ "missing".data, idChar c = true) ∧ "missing".data ≠ ([] : List Char)
      ∧ parseInternalLinks aboutLinks "<InternalLink id=\"missing\"/>"
          = "<span class=\"broken-link\">[Broken Link: missing]</span>" := by
  refine ⟨by decide, by decide, by decide, ?_⟩
  have h := c2_placeholder_resolution aboutLinks "<InternalLink".data "missing".data
    (by decide) (by decide) (by decide)
  exact h.1.1.trans (congrArg String.mk (h.2.1 (by decide)))

/-- Counterexample to C2 as stated: the placeholder shape with the
self-closing slash omitted is not matched by the replace regex, so it is
left in place, with neither an anchor nor a broken-link marker produced,
although its id is present in the table. -/
theorem c2_claim_counterexample :
    parseInternalLinks aboutLinks "<InternalLink id=\"about\">"
      = "<InternalLink id=\"about\">"
    ∧ containsSub "<a".data "<InternalLink id=\"about\">".data = false
    ∧ containsSub "broken-link".data "<InternalLink id=\"about\">".data = false
    ∧ lookupLink aboutLinks (lowerStr "about".data) = some ⟨"about", "/about", "About Us"⟩ := by
  exact ⟨by decide, by decide, by decide, by decide⟩

theorem faqLoop_answer_ne (body : List Char) :
    ∀ (ms : List (List Char)) (item : FAQItem), item ∈ faqLoop body ms → item.answer ≠ ""
  | [], item, h => absurd h (List.not_mem_nil item)
  | m :: ms, item, h => by
    rw [faqLoop] at h
    split at h
    · exact faqLoop_answer_ne body ms item h
    · rename_i hnn
      rcases List.mem_cons.mp h with h1 | h1
      · subst h1
        intro hc
        simp only [String.ext_iff] at hc
        exact hnn hc
      · exact faqLoop_answer_ne body ms item h1

theorem generateFAQSchema_items (body : String) (items : List FAQItem)
    (h : generateFAQSchema body = some items) :
    items = faqLoop body.data (headingMatches body.data) := by
  rw [generateFAQSchema] at h
  split at h
  · exact absurd h (by simp)
  · split at h
    · exact absurd h (by simp)
    · exact (Option.some.inj h).symm

theorem getAttr_nil (k : String) : getAttr [] k = none := rfl

theorem getAttr_cons_hit (k v : String) (rest : List (String × String)) :
    getAttr ((k, v) :: rest) k = some v := by
  simp [getAttr, List.find?]

theorem getAttr_cons_miss (k1 k v : String) (rest : List (String × String)) (h : k1 ≠ k) :
    getAttr ((k1, v) :: rest) k = getAttr rest k := by
  simp only [getAttr, List.find?, show (decide (k1 = k)) = false from decide_eq_false h]

theorem getAttr_append_left_none (k : String) (l l2 : List (String × String))
    (h : getAttr l k = none) : getAttr (l ++ l2) k = getAttr l2 k := by
  simp only [getAttr, Option.map_eq_none'] at h
  simp only [getAttr, List.find?_append, h, Option.none_or]

theorem getAttr_filter (allowed : List String) (k : String) (hk : allowed.contains k = true) :
    ∀ (l : List (String × String)),
      getAttr (l.filter (fun p => allowed.contains p.1)) k = getAttr l k
  | [] => rfl
  | (k1, v1) :: rest => by
    have ih := getAttr_filter allowed k hk rest
    by_cases hk1 : k1 = k
    · subst hk1
      simp only [List.filter_cons, hk, if_true, getAttr_cons_hit]
    · cases hkeep : allowed.contains k1 with
      | true =>
        simp only [List.filter_cons, hkeep, if_true,
          getAttr_cons_miss k1 k v1 _ hk1, ih]
      | false =>
        simp only [List.filter_cons, hkeep, Bool.false_eq_true, if_false,
          getAttr_cons_miss k1 k v1 rest hk1, ih]

theorem getAttr_none_of_any_false (k : String) :
    ∀ (l : List (String × String)), l.any (fun p => p.1 = k) = false →
      getAttr l k = none
  | [], _ => rfl
  | (k1, v1) :: rest, h => by
    simp only [List.any_cons, Bool.or_eq_false_iff, decide_eq_false_iff_not] at h
    rw [getAttr_cons_miss k1 k v1 rest h.1]
    exact getAttr_none_of_any_false k rest
      (by simpa using h.2)

theorem getAttr_map_set_self (k v : String) :
    ∀ (l : List (String × String)), l.any (fun p => p.1 = k) = true →
      getAttr (l.map (fun p => if p.1 = k then (k, v) else p)) k = some v
  | (k1, v1) :: rest, h => by
    by_cases hk1 : k1 = k
    · subst hk1
      rw [List.map_cons]
      have hif : (if ((k1, v1).1 = k1) then (k1, v) else (k1, v1)) = (k1, v) := by simp
      rw [hif, getAttr_cons_hit]
    · have h2 : rest.any (fun p => p.1 = k) = true := by
        simp only [List.any_cons, show (decide (k1 = k)) = false from decide_eq_false hk1,
          Bool.false_or] at h
        exact h
      simp only [List.map_cons, if_neg hk1, getAttr_cons_miss k1 k v1 _ hk1]
      exact getAttr_map_set_self k v rest h2

theorem getAttr_map_set_ne (k k2 v : String) (hne : k2 ≠ k) :
    ∀ (l : List (String × String)),
      getAttr (l.map (fun p => if p.1 = k2 then (k2, v) else p)) k = getAttr l k
  | [] => rfl
  | (k1, v1) :: rest => by
    have ih := getAttr_map_set_ne k k2 v hne rest
    by_cases hk1 : k1 = k2
    · subst hk1
      rw [List.map_cons]
      have hif : (if ((k1, v1).1 = k1) then (k1, v) else (k1, v1)) = (k1, v) := by simp
      rw [hif, getAttr_cons_miss k1 k v _ hne, getAttr_cons_miss k1 k v1 rest hne, ih]
    · by_cases hk1k : k1 = k
      · subst hk1k
        simp only [List.map_cons, if_neg hk1, getAttr_cons_hit]
      · simp only [List.map_cons, if_neg hk1, getAttr_cons_miss k1 k v1 _ hk1k,
          getAttr_cons_miss k1 k v1 rest hk1k, ih]

theorem getAttr_setAttr_self (k v : String) (l : List (String × String)) :
    getAttr (setAttr l k v) k = some v := by
  rw [setAttr]
  cases hany : l.any (fun p => p.1 = k) with
  | true =>
    simp only [if_true]
    exact getAttr_map_set_self k v l hany
  | false =>
    simp only [Bool.false_eq_true, if_false]
    rw [getAttr_append_left_none k l _ (getAttr_none_of_any_false k l hany)]
    exact getAttr_cons_hit k v []

theorem getAttr_setAttr_ne (k k2 v : String) (hne : k2 ≠ k) (l : List (String × String)) :
    getAttr (setAttr l k2 v) k = getAttr l k := by
  rw [setAttr]
  cases hany : l.any (fun p => p.1 = k2) with
  | true =>
    simp only [if_true]
    exact getAttr_map_set_ne k k2 v hne l
  | false =>
    simp only [Bool.false_eq_true, if_false]
    cases hg : getAttr l k with
    | some w =>
      simp only [getAttr, Option.map_eq_some'] at hg
      obtain ⟨p, hp, hpv⟩ := hg
      simp only [getAttr, List.find?_append, hp]
      simp [hpv]
    | none =>
      simp [getAttr_append_left_none k l _ hg, getAttr_cons_miss k2 k v [] hne, hg,
        getAttr_nil]

/-- Counterexample to C3 as stated: with two identical headings, the answer
of the second item is computed from the first occurrence of its heading
text, repeating earlier content, instead of the text strictly between the
second heading and the end of the document. -/
theorem c3_claim_counterexample :
    generateFAQSchema "<h2>A</h2><p>x</p><h2>A</h2><p>y</p>"
      = some [⟨"A", "x"⟩, ⟨"A", "x A y"⟩]
    ∧ generateFAQSchema "<h2>A</h2><p>x</p><h2>A</h2><p>y</p>"
        ≠ some [⟨"A", "x"⟩, ⟨"A", "y"⟩] := by
  exact ⟨by decide, by decide⟩

/-- C3 (amended): FAQ extraction over the pre-sanitization body yields the
headings in document order, names with markup stripped and trimmed, and
answers with markup stripped to spaces, whitespace collapsed and trimmed,
taken from the end of the first occurrence of the heading's matched text up
to the next heading — which is the text strictly between the heading and
the next heading whenever each heading's matched text occurs only once in
the body; a heading with an empty answer contributes no item, zero items
yield no result, and every produced item has a non-empty answer. -/
theorem c3_faq_extraction :
    generateFAQSchema "<h2>Intro</h2><p>hello</p><h2>FAQ</h2><p>ans</p>"
      = some [⟨"Intro", "hello"⟩, ⟨"FAQ", "ans"⟩]
    ∧ generateFAQSchema "<h2>A</h2><h2>B</h2><p>x</p>" = some [⟨"B", "x"⟩]
    ∧ generateFAQSchema "<p>no headings</p>" = none
    ∧ generateFAQSchema "" = none
    ∧ generateFAQSchema "<h2 class=\"s\">Q <em>one</em></h2><p>first   answer</p>"
        = some [⟨"Q one", "first answer"⟩]
    ∧ generateFAQSchema "<h2>A</h2><p>x</p><h2>A</h2><p>y</p>"
        = some [⟨"A", "x"⟩, ⟨"A", "x A y"⟩]
    ∧ ∀ (body : String) (items : List FAQItem) (item : FAQItem),
        generateFAQSchema body = some items → item ∈ items → item.answer ≠ "" := by
  refine ⟨by decide, by decide, by decide, by decide, by decide, by decide, ?_⟩
  intro body items item hsome hmem
  exact faqLoop_answer_ne body.data _ item (generateFAQSchema_items body items hsome ▸ hmem)

/-- C4: every token in the sanitizer's output is text, a closing tag of an
allow-listed tag, or an opening tag of an allow-listed tag carrying only
attributes allowed for that tag; nothing outside the allow-lists is kept,
for an arbitrary input token stream. -/
theorem c4_sanitize_allowlist (ts : List HtmlToken) (tok : HtmlToken)
    (h : tok ∈ sanitize ts) : tokenAllowed tok := by
  rw [sanitize, List.mem_filterMap] at h
  obtain ⟨src, _, hs⟩ := h
  cases src with
  | text s =>
    simp only [sanitizeToken] at hs
    cases Option.some.inj hs
    trivial
  | closeTag t =>
    simp only [sanitizeToken] at hs
    split at hs
    · rename_i hcond
      cases Option.some.inj hs
      exact List.elem_iff.mp hcond
    · exact absurd hs (by simp)
  | openTag t0 a0 =>
    simp only [sanitizeToken] at hs
    split at hs
    · rename_i hallow
      split at hs
      · exact absurd hs (by simp)
      · cases Option.some.inj hs
        refine ⟨List.elem_iff.mp hallow, ?_⟩
        intro p hp
        rw [List.mem_filter] at hp
        exact List.elem_iff.mp hp.2
    · exact absurd hs (by simp)

/-- Witness for c4_sanitize_allowlist at a concrete tag soup: the script
tag is dropped, the p survives with its disallowed class attribute
removed, and the kept token satisfies the allow-list predicate. -/
theorem c4_sanitize_allowlist_witness :
    HtmlToken.openTag "p" [] ∈ sanitize
      [HtmlToken.openTag "script" [("src", "x.js")],
        HtmlToken.openTag "p" [("class", "x")], HtmlToken.text "hi",
        HtmlToken.closeTag "p", HtmlToken.closeTag "script"]
    ∧ tokenAllowed (HtmlToken.openTag "p" []) := by
  refine ⟨by decide, ?_⟩
  exact c4_sanitize_allowlist
    [HtmlToken.openTag "script" [("src", "x.js")],
      HtmlToken.openTag "p" [("class", "x")], HtmlToken.text "hi",
      HtmlToken.closeTag "p", HtmlToken.closeTag "script"]
    (HtmlToken.openTag "p" []) (by decide)

/-- C5: every anchor in the sanitized output whose href starts with the
http scheme prefix carries the noopener-noreferrer-nofollow relation and
the blank-target attribute, and the transform leaves an anchor without an
external href unchanged. -/
theorem c5_external_anchor_attrs :
    (∀ (ts : List HtmlToken) (attrs : List (String × String)) (href : String),
        HtmlToken.openTag "a" attrs ∈ sanitize ts →
        getAttr attrs "href" = some href →
        isPrefixOfB "http".data href.data = true →
        getAttr attrs "rel" = some "noopener noreferrer nofollow"
          ∧ getAttr attrs "target" = some "_blank")
    ∧ (∀ (t : String) (a0 : List (String × String)),
        (∀ href, getAttr a0 "href" = some href → isPrefixOfB "http".data href.data = false) →
        transformTag t a0 = (t, a0)) := by
  constructor
  · intro ts attrs href hmem hhref hpre
    rw [sanitize, List.mem_filterMap] at hmem
    obtain ⟨src, _, hs⟩ := hmem
    cases src with
    | text s => exact absurd (Option.some.inj hs) (by simp)
    | closeTag t =>
      simp only [sanitizeToken] at hs
      split at hs
      · exact absurd (Option.some.inj hs) (by simp)
      · exact absurd hs (by simp)
    | openTag t0 a0 =>
      simp only [sanitizeToken] at hs
      split at hs
      · split at hs
        · exact absurd hs (by simp)
        · obtain ⟨htag, hattrs⟩ := HtmlToken.openTag.inj (Option.some.inj hs)
          by_cases ht0 : t0 = "a"
          swap
          · rw [transformTag, if_neg ht0] at htag
            exact absurd htag ht0
          subst ht0
          cases hh : getAttr a0 "href" with
          | none =>
            have htr : transformTag "a" a0 = ("a", a0) := by
              rw [transformTag, if_pos rfl, aTransform]
              simp [hh]
            simp only [htr] at hattrs
            rw [← hattrs, getAttr_filter _ _ (by decide) a0, hh] at hhref
            exact absurd hhref (by simp)
          | some h0 =>
            cases hp0 : isPrefixOfB "http".data h0.data with
            | false =>
              have htr : transformTag "a" a0 = ("a", a0) := by
                rw [transformTag, if_pos rfl, aTransform]
                simp [hh, hp0]
              simp only [htr] at hattrs
              rw [← hattrs, getAttr_filter _ _ (by decide) a0, hh] at hhref
              cases Option.some.inj hhref
              rw [hp0] at hpre
              exact absurd hpre (by simp)
            | true =>
              have htr : transformTag "a" a0
                  = ("a", setAttr (setAttr a0 "rel" "noopener noreferrer nofollow")
                      "target" "_blank") := by
                rw [transformTag, if_pos rfl, aTransform]
                simp [hh, hp0]
              simp only [htr] at hattrs
              rw [← hattrs]
              constructor
              · rw [getAttr_filter _ _ (by decide),
                  getAttr_setAttr_ne "rel" "target" "_blank" (by decide),
                  getAttr_setAttr_self]
              · rw [getAttr_filter _ _ (by decide), getAttr_setAttr_self]
      · exact absurd hs (by simp)
  · intro t a0 hno
    by_cases ht : t = "a"
    · subst ht
      cases hh : getAttr a0 "href" with
      | none => simp [transformTag, aTransform, hh]
      | some h0 => simp [transformTag, aTransform, hh, hno h0 hh]
    · simp [transformTag, ht]

/-- Witness for c5_external_anchor_attrs: a concrete external anchor in the
sanitized output carries the required relation and target values. -/
theorem c5_external_anchor_attrs_witness :
    HtmlToken.openTag "a"
        [("href", "https://example.com"), ("class", "x"),
          ("rel", "noopener noreferrer nofollow"), ("target", "_blank")]
      ∈ sanitize [HtmlToken.openTag "a" [("href", "https://example.com"), ("class", "x")]]
    ∧ getAttr
        [("href", "https://example.com"), ("class", "x"),
          ("rel", "noopener noreferrer nofollow"), ("target", "_blank")] "rel"
        = some "noopener noreferrer nofollow"
    ∧ getAttr
        [("href", "https://example.com"), ("class", "x"),
          ("rel", "noopener noreferrer nofollow"), ("target", "_blank")] "target"
        = some "_blank" := by
  refine ⟨by decide, ?_⟩
  have h := c5_external_anchor_attrs.1
    [HtmlToken.openTag "a" [("href", "https://example.com"), ("class", "x")]]
    [("href", "https://example.com"), ("class", "x"),
      ("rel", "noopener noreferrer nofollow"), ("target", "_blank")]
    "https://example.com" (by decide) (by decide) (by decide)
  exact h

/-- C6: the code drops every iframe, the configured YouTube one included,
because iframe is missing from the allowedTags list: only the img and
vector-graphics tags are added to the library defaults, which do not
contain iframe, so the configured iframe attribute list and hostname
restriction never apply. -/
theorem c6_iframe_dropped :
    sanitize [HtmlToken.openTag "iframe"
        [("src", "https://www.youtube.com/embed/abc"), ("width", "560"), ("height", "315")]]
      = []
    ∧ allowedTags.contains "iframe" = false
    ∧ allowedAttributesFor "iframe" = ["src", "width", "height", "frameborder", "allowfullscreen"]
    ∧ allowedIframeHostnames = ["www.youtube.com", "player.vimeo.com"]
    ∧ iframeSrcAllowed [("src", "https://www.youtube.com/embed/abc")] = true := by
  exact ⟨by decide, by decide, by decide, by decide, by decide⟩

theorem h2Go_nil (n : Nat) : h2Go n [] = [] := by cases n <;> rfl

theorem matchH2Open_attrs (w : Char) (a : List Char) (hw : isJsWs w = true)
    (ha : ∀ c ∈ a, c ≠ '>') :
    matchH2Open ('<' :: 'h' :: '2' :: (w :: (a ++ ['>']))) = some (w :: a, []) := by
  have hb : ∀ c ∈ a, (fun d => !(d = '>')) c = true := by
    intro c hc
    simp [decide_eq_false (ha c hc)]
  have hdw : (a ++ ['>']).dropWhile (fun d => !(d = '>')) = ['>'] := by
    rw [dropWhile_append_all _ _ hb]; rfl
  have htw : (a ++ ['>']).takeWhile (fun d => !(d = '>')) = a := by
    rw [takeWhile_append_all _ _ hb]; simp
  have h1 : stripCI "<h2".data ('<' :: 'h' :: '2' :: (w :: (a ++ ['>'])))
      = some (w :: (a ++ ['>'])) := rfl
  simp [matchH2Open, h1, hw, hdw, htw]

theorem h2Go_single (w : Char) (a : List Char) (hw : isJsWs w = true)
    (ha : ∀ c ∈ a, c ≠ '>') :
    h2Go ('<' :: 'h' :: '2' :: (w :: (a ++ ['>']))).length
        ('<' :: 'h' :: '2' :: (w :: (a ++ ['>'])))
      = "<h2".data ++ (w :: a) ++ " class=\"blog-heading\">".data := by
  have hm := matchH2Open_attrs w a hw ha
  rw [List.length_cons]
  simp only [h2Go, hm, h2Go_nil, List.append_nil]

/-- Counterexample to C7 as stated: an h2 tag that already carries a class
attribute ends up with a second, separate class attribute appended, not
with a single class attribute containing both tokens. -/
theorem c7_claim_counterexample :
    addBlogHeadingClass "<h2 class=\"foo\">x</h2>"
      = "<h2 class=\"foo\" class=\"blog-heading\">x</h2>"
    ∧ containsSub "class=\"foo\" class=\"blog-heading\"".data
        (addBlogHeadingClass "<h2 class=\"foo\">x</h2>").data = true
    ∧ containsSub "class=\"foo blog-heading\"".data
        (addBlogHeadingClass "<h2 class=\"foo\">x</h2>").data = false := by
  exact ⟨by decide, by decide, by decide⟩

/-- C7 (amended): every h2 opening tag gains the blog-heading class as an
appended class declaration, the existing attribute text being kept
verbatim, neither duplicated nor removed; on a tag that already has a
class attribute this produces a second class attribute rather than one
merged attribute. -/
theorem c7_heading_class (w : Char) (a : List Char) (hw : isJsWs w = true)
    (ha : ∀ c ∈ a, c ≠ '>') :
    addBlogHeadingClass ⟨'<' :: 'h' :: '2' :: (w :: (a ++ ['>']))⟩
      = ⟨"<h2".data ++ (w :: a) ++ " class=\"blog-heading\">".data⟩
    ∧ addBlogHeadingClass "<h2>" = "<h2 class=\"blog-heading\">" := by
  exact ⟨congrArg String.mk (h2Go_single w a hw ha), by decide⟩

/-- Witness for c7_heading_class: an h2 tag with an id attribute keeps it
and gains the class declaration. -/
theorem c7_heading_class_witness :
    isJsWs ' ' = true ∧ (∀ c ∈ "id=x".data, c ≠ '>')
    ∧ addBlogHeadingClass "<h2 id=x>" = "<h2 id=x class=\"blog-heading\">" := by
  refine ⟨by decide, by decide, ?_⟩
  exact (c7_heading_class ' ' "id=x".data (by decide) (by decide)).1

/-- C8: the product schema builder yields no result exactly when the
article carries no affiliate link under the JS falsy guard, which treats
both an absent link and an empty-string link as no link; with a non-empty
link present it yields a record whose offer url is the affiliate link and
whose price is the fixed placeholder zero. -/
theorem c8_product_schema (a : Article) :
    (generateProductSchema a = none ↔ jsTruthy a.amazon_link = false)
    ∧ (a.amazon_link = some "" → generateProductSchema a = none)
    ∧ (∀ link, a.amazon_link = some link → link ≠ "" →
        ∃ p, generateProductSchema a = some p
          ∧ p.offers.url = link ∧ p.offers.price = "0") := by
  refine ⟨?_, ?_, ?_⟩
  · cases h : a.amazon_link with
    | none => simp [generateProductSchema, h, jsTruthy]
    | some l =>
      by_cases hl : l = ""
      · subst hl
        simp [generateProductSchema, h, jsTruthy]
      · simp [generateProductSchema, h, jsTruthy, hl]
  · intro h
    rw [generateProductSchema, h]
    rfl
  · intro link hl hne
    have hp : generateProductSchema a = some
        { name := a.pageTitle
          description := jsOrStr a.metaDescription a.description
          image := a.featuredImageUrl
          offers :=
            { url := link
              priceCurrency := "USD"
              price := "0"
              availability := "https://schema.org/InStock" } } := by
      rw [generateProductSchema, hl]
      exact if_neg hne
    exact ⟨_, hp, rfl, rfl⟩

/-- Witness for c8_product_schema at the demo article with a non-empty
affiliate link. -/
theorem c8_product_schema_witness :
    demoArticle.amazon_link = some "https://www.amazon.com/dp/x"
    ∧ "https://www.amazon.com/dp/x" ≠ ""
    ∧ ∃ p, generateProductSchema demoArticle = some p
        ∧ p.offers.url = "https://www.amazon.com/dp/x" ∧ p.offers.price = "0" := by
  exact ⟨rfl, by decide,
    (c8_product_schema demoArticle).2.2 "https://www.amazon.com/dp/x" rfl (by decide)⟩

/-- C9: when the transform chain of the content region fails, the content
region renders as the error placeholder, and every other region of the
page is unaffected by the chain's outcome; the page function is total, so
no error propagates out of the content region. -/
theorem c9_error_boundary (a : Article) (e : String) :
    (blogPostPage a (Except.error e)).content = errorPlaceholder
    ∧ ∀ (r r2 : Except String String),
        pageChrome (blogPostPage a r) = pageChrome (blogPostPage a r2) := by
  exact ⟨rfl, fun r r2 => rfl⟩

/-- C10: the slug lookup succeeds exactly when some article's stored slug
matches the requested slug after trimming and lowercasing on both sides,
the found article is such a match, and on a failed lookup the metadata
title falls back to the not-found text. -/
theorem c10_slug_lookup (articles : List Article) (slug : String) :
    ((findArticle articles slug).isSome
        ↔ ∃ a ∈ articles, normalizeSlug a.slug = normalizeSlug slug)
    ∧ (∀ a, findArticle articles slug = some a →
        a ∈ articles ∧ normalizeSlug a.slug = normalizeSlug slug)
    ∧ (findArticle articles slug = none →
        generateMetadataTitle articles slug = "Article Not Found") := by
  refine ⟨?_, ?_, ?_⟩
  · rw [findArticle, List.find?_isSome]
    constructor
    · rintro ⟨a, ha, hp⟩
      exact ⟨a, ha, of_decide_eq_true hp⟩
    · rintro ⟨a, ha, hp⟩
      exact ⟨a, ha, decide_eq_true hp⟩
  · intro a ha
    rw [findArticle] at ha
    have hp := List.find?_some ha
    exact ⟨List.mem_of_find?_eq_some ha, of_decide_eq_true hp⟩
  · intro h
    rw [generateMetadataTitle, h]

/-- Witness for c10_slug_lookup: a request differing from the stored slug
only in case and surrounding whitespace finds the article, and an empty
dataset yields the not-found title. -/
theorem c10_slug_lookup_witness :
    findArticle [demoArticle] "  BEST-CAT-FEEDER " = some demoArticle
    ∧ demoArticle ∈ [demoArticle]
    ∧ normalizeSlug demoArticle.slug = normalizeSlug "  BEST-CAT-FEEDER "
    ∧ generateMetadataTitle [] "x" = "Article Not Found" := by
  have h := (c10_slug_lookup [demoArticle] "  BEST-CAT-FEEDER ").2.1 demoArticle (by decide)
  have h2 := (c10_slug_lookup ([] : List Article) "x").2.2 (by decide)
  exact ⟨by decide, h.1, h.2, h2⟩

/-- Witness for c3_faq_extraction: the general non-empty-answer component
applied to the spec's example body and its first item. -/
theorem c3_faq_extraction_witness :
    generateFAQSchema "<h2>Intro</h2><p>hello</p><h2>FAQ</h2><p>ans</p>"
      = some [⟨"Intro", "hello"⟩, ⟨"FAQ", "ans"⟩]
    ∧ (⟨"Intro", "hello"⟩ : FAQItem) ∈ [(⟨"Intro", "hello"⟩ : FAQItem), ⟨"FAQ", "ans"⟩]
    ∧ (⟨"Intro", "hello"⟩ : FAQItem).answer ≠ "" := by
  refine ⟨by decide, by decide, ?_⟩
  exact c3_faq_extraction.2.2.2.2.2.2 "<h2>Intro</h2><p>hello</p><h2>FAQ</h2><p>ans</p>"
    [⟨"Intro", "hello"⟩, ⟨"FAQ", "ans"⟩] ⟨"Intro", "hello"⟩ (by decide) (by decide)
